import Mathlib

/-!
# service/creation/creation.go

A shallow embedding of the `creation` package: the token-holding client
`Creation`, the transport function `speak`, the token fetch `GetToken`, and the
orchestration in `GetAudio` / `GetAudioNoVoiceId`.

Modelling conventions

* A Go `string` holding text is a Lean `String` (well-formed UTF-8), so that
  `utf8.RuneCountInString` is the number of codepoints `String.length`, while
  `len` in bytes is `String.utf8ByteSize`.
* A `[]byte` is `Option Bytes`: `none` is the nil slice.
* An `error` is `Option GoError`: `none` is the nil error.  The three package
  sentinels are constructors of their own; `errors.New(string(data))` is
  `GoError.errorsNew data`; errors made by `net/http`, `io` and
  `encoding/json` are `GoError.lib`.
* The remote side is a `World σ`: a deterministic function of the request and
  of a state `σ` that it may change on every exchange.
* `GetAudio` takes a `*SpeakArg`; every recursive call receives the same
  pointer, so the pointee is one cell `St.arg` of the machine state.
* `GetAudio` calls itself (per chunk, and after an unauthorized answer); the
  model takes a recursion budget and answers `none` when it is used up.
-/

namespace Creation

/-! ## Data model -/

/-- Contents of a Go byte slice. -/
abbrev Bytes := List UInt8

/-- Message of an error value produced by the standard library. -/
abbrev LibErr := String

/-- Error values that can leave this package. -/
inductive GoError where
  /-- Line 22: `TokenErr = errors.New("unauthorized")`. -/
  | TokenErr
  /-- Line 24: `NotSupportedVoiceErr`. -/
  | NotSupportedVoiceErr
  /-- Line 26: `httpStatusCodeErr`. -/
  | httpStatusCodeErr
  /-- Line 118: `errors.New(string(data))`, a fresh error whose message is `data`. -/
  | errorsNew (msg : Bytes)
  /-- An error returned by `net/http`, `io` or `encoding/json`. -/
  | lib (e : LibErr)
  deriving DecidableEq, Repr

/-- The text `err.Error()` gives, as bytes. -/
def GoError.Error : GoError → Bytes
  | .TokenErr => "unauthorized".toUTF8.toList
  | .NotSupportedVoiceErr => "不支持的发音人(找不到Voice ID)".toUTF8.toList
  | .httpStatusCodeErr => "http status code not equal 200".toUTF8.toList
  | .errorsNew msg => msg
  | .lib e => e.toUTF8.toList

/-- Go `errors.Is(err, target)` for a sentinel `target`: none of the errors of
this package wraps another, so it is identity with the sentinel. -/
def errorsIs (err : Option GoError) (target : GoError) : Bool :=
  err == some target

/-- Lines 33-35: `type SpeakArg struct`. -/
structure SpeakArg where
  Text : String
  VoiceName : String
  VoiceId : String
  Rate : String
  Style : String
  StyleDegree : String
  Role : String
  Volume : String
  Format : String
  deriving DecidableEq, Repr

/-- An HTTP request as this package builds it. -/
structure Request where
  Method : String
  Url : String
  Header : List (String × String)
  Body : String
  deriving DecidableEq, Repr

/-- An HTTP response: the status code, and what reading the body to its end
gives. -/
structure Response where
  StatusCode : Nat
  Body : Except LibErr Bytes

/-- The remote side and the library functions whose result depends on it. -/
structure World (σ : Type) where
  /-- Go `http.Get(url)`. -/
  httpGet : String → σ → Except LibErr Response × σ
  /-- Go `http.DefaultClient.Do(req)`. -/
  httpDo : Request → σ → Except LibErr Response × σ
  /-- Decoding a JSON document into a `map[string]string`. -/
  jsonDecode : Bytes → Except LibErr (String → Option String)

/-- Observable network activity. -/
inductive Event where
  /-- One GET of the token endpoint, made by `GetToken`. -/
  | tokenFetch
  /-- One call of `speak`, with the token and the request fields it was given. -/
  | synth (token : String) (a : SpeakArg)
  deriving DecidableEq, Repr

/-- Machine state: the receiver `c`, the pointee of `arg`, the remote side, and
the network activity so far. -/
structure St (σ : Type) where
  /-- Line 30: `c.token`. -/
  token : String
  /-- The `SpeakArg` the caller passed by pointer. -/
  arg : SpeakArg
  net : σ
  log : List Event

/-- Go `(audio []byte, err error)`. -/
abbrev Ret := Option Bytes × Option GoError

/-! ## Constants -/

def tokenUrl : String :=
  "https://southeastasia.customvoice.api.speech.microsoft.com/api/texttospeech/v3.0-beta1/accdemopageentry/auth-token"

def speakUrl : String :=
  "https://southeastasia.customvoice.api.speech.microsoft.com/api/texttospeech/v3.0-beta1/accdemopage/speak"

/-! ## Library functions -/

/-- Go `utf8.RuneCountInString` on well-formed text. -/
def RuneCountInString (s : String) : Nat := s.length

/-- Go `append(audio, data...)` on byte slices; appending nothing to nil
leaves nil. -/
def goAppend (audio data : Option Bytes) : Option Bytes :=
  match audio, data with
  | none, none => none
  | none, some [] => none
  | none, some d => some d
  | some a, none => some a
  | some a, some d => some (a ++ d)

/-- The bytes held by a slice. -/
def bytesOf (b : Option Bytes) : Bytes := b.getD []

/-- Greedy split of a codepoint list into pieces of `chunkSize`. -/
def chunkRunes (chunkSize : Nat) : Nat → List Char → List (List Char)
  | 0, _ => []
  | _ + 1, [] => []
  | fuel + 1, c :: cs =>
    (c :: cs).take chunkSize :: chunkRunes chunkSize fuel ((c :: cs).drop chunkSize)

/-- Modelled from the spec: `tts_server_go.ChunkString` of the repository's
root package is not among the sources.  The spec has the text split "into
chunks of ≤290 codepoints each, preserving order, at codepoint boundaries",
into `ceil(L/290)` chunks, 301 codepoints giving pieces of 290 and 11 and 305
giving 290 and 15: every chunk but the last is full. -/
def ChunkString (s : String) (chunkSize : Nat) : List String :=
  (chunkRunes chunkSize s.length s.data).map String.mk

/-! ## The package's functions -/

/-- Lines 82-86: the `ssml` string of `speak`. -/
def speakSsml (text voiceName VoiceId rate style styleDegree role volume : String) : String :=
  "<!--ID=B7267351-473F-409D-9765-754A8EBCDE05;Version=1|\x7b\\\"VoiceNameToIdMapItems\\\":[\x7b\\\"Id\\\":\\\"" ++
  VoiceId ++ "\\\",\\\"Name\\\":\\\"Microsoft Server Speech Text to Speech Voice (zh-CN, XiaoxiaoNeural)\\\",\\\"ShortName\\\":\\\"" ++
  voiceName ++ "\\\",\\\"Locale\\\":\\\"zh-CN\\\",\\\"VoiceType\\\":\\\"StandardVoice\\\"\x7d]\x7d-->\\n<!--ID=5B95B1CC-2C7B-494F-B746-CF22A0E779B7;Version=1|\x7b\\\"Locales\\\":\x7b\\\"zh-CN\\\":\x7b\\\"AutoApplyCustomLexiconFiles\\\":[\x7b\x7d]\x7d\x7d\x7d-->\\n<speak version=\\\"1.0\\\" xmlns=\\\"http://www.w3.org/2001/10/synthesis\\\" xmlns:mstts=\\\"http://www.w3.org/2001/mstts\\\" xmlns:emo=\\\"http://www.w3.org/2009/10/emotionml\\\" xml:lang=\\\"zh-CN\\\"><voice name=\\\"" ++
  voiceName ++ "\\\"><lang xml:lang=\\\"zh-CN\\\"><mstts:express-as style=\\\"" ++ style ++ "\\\" styledegree=\\\"" ++ styleDegree ++ "\\\" role=\\\"" ++
  role ++ "\\\"><prosody rate=\\\"" ++ rate ++ "\\\" volume=\\\"" ++ volume ++ "\\\">" ++ text ++ "</prosody></mstts:express-as></lang></voice></speak>"

/-- Lines 87-95: the JSON text posted by `speak`. -/
def speakPayload (ssml format : String) : String :=
  "\x7b\n    \"ssml\": \"" ++ ssml ++ "\",\n    \"ttsAudioFormat\": \"" ++ format ++
  "\",\n    \"offsetInPlainText\": 0,\n    \"lengthInPlainText\":" ++ "300" ++
  ",\"properties\": \x7b\n        \"SpeakTriggerSource\": \"AccTuningPagePlayButton\"\n    \x7d\n\x7d"

/-- Lines 96-102: the request `speak` sends.  `http.NewRequest` cannot fail on
the constant method and URL. -/
def speakRequest (token text voiceName VoiceId rate style styleDegree role volume format : String) :
    Request :=
  { Method := "POST"
    Url := speakUrl
    Header := [("AccDemoPageAuthToken", token), ("Content-Type", "application/json")]
    Body := speakPayload (speakSsml text voiceName VoiceId rate style styleDegree role volume) format }

/-- Lines 81-122: `speak`. -/
def speak {σ : Type} (W : World σ)
    (token text voiceName VoiceId rate style styleDegree role volume format : String)
    (s : St σ) : Ret × St σ :=
  let req := speakRequest token text voiceName VoiceId rate style styleDegree role volume format
  let ex := W.httpDo req s.net
  let s1 : St σ :=
    { s with
      net := ex.2
      log := s.log ++ [Event.synth token
        ⟨text, voiceName, VoiceId, rate, style, styleDegree, role, volume, format⟩] }
  match ex.1 with
  | .error e => ((none, some (.lib e)), s1)
  | .ok resp =>
    if resp.StatusCode = 401 then ((none, some .TokenErr), s1)
    else
      match resp.Body with
      | .error e => ((none, some (.lib e)), s1)
      | .ok data =>
        if resp.StatusCode ≠ 200 then ((none, some (.errorsNew data)), s1)
        else ((some data, none), s1)

/-- Lines 154-171: `GetToken`. -/
def GetToken {σ : Type} (W : World σ) (s : St σ) : (String × Option GoError) × St σ :=
  let ex := W.httpGet tokenUrl s.net
  let s1 : St σ := { s with net := ex.2, log := s.log ++ [Event.tokenFetch] }
  match ex.1 with
  | .error e => (("", some (.lib e)), s1)
  | .ok resp =>
    if resp.StatusCode ≠ 200 then (("", some .httpStatusCodeErr), s1)
    else
      match resp.Body with
      | .error e => (("", some (.lib e)), s1)
      | .ok data =>
        match W.jsonDecode data with
        | .error e => (("", some (.lib e)), s1)
        | .ok value => (((value "authToken").getD "", none), s1)

/-- Lines 50-51: `tmpArg := arg; tmpArg.Text = v`.  `arg` is a `*SpeakArg`, so
`tmpArg` is the same pointer and the write lands in the caller's `SpeakArg`. -/
def setText {σ : Type} (s : St σ) (v : String) : St σ :=
  { s with arg := { s.arg with Text := v } }

/-- Lines 49-58: the loop over the chunks, `call` being `c.GetAudio`. -/
def chunkLoop {σ : Type} (call : St σ → Option Ret × St σ) :
    List String → Option Bytes → St σ → Option Ret × St σ
  | [], audio, s => (some (audio, none), s)
  | v :: vs, audio, s =>
    match call (setText s v) with
    | (none, s1) => (none, s1)
    | (some (_, some err), s1) => (some (none, some err), s1)
    | (some (data, none), s1) => chunkLoop call vs (goAppend audio data) s1

/-- Lines 61-62: the call of `speak` with the held token and the fields of
`arg`. -/
def callSpeak {σ : Type} (W : World σ) (s : St σ) : Ret × St σ :=
  speak W s.token s.arg.Text s.arg.VoiceName s.arg.VoiceId s.arg.Rate s.arg.Style
    s.arg.StyleDegree s.arg.Role s.arg.Volume s.arg.Format s

/-- Lines 46-68: `GetAudio` from the length test on, `call` being `c.GetAudio`. -/
def sendOrSplit {σ : Type} (W : World σ) (call : St σ → Option Ret × St σ) (s : St σ) :
    Option Ret × St σ :=
  if RuneCountInString s.arg.Text > 300 then
    chunkLoop call (ChunkString s.arg.Text 290) none s
  else
    let r := callSpeak W s
    if errorsIs r.1.2 .TokenErr then call { r.2 with token := "" }
    else (some r.1, r.2)

/-- Lines 38-44: the held token is fetched when it is empty; a failed fetch
is the error of the whole call. -/
def ensureToken {σ : Type} (W : World σ) (s : St σ) : Option GoError × St σ :=
  if s.token = "" then
    let t := GetToken W s
    match t.1.2 with
    | some err => (some err, t.2)
    | none => (none, { t.2 with token := t.1.1 })
  else (none, s)

/-- Lines 37-69: `Creation.GetAudio`.  The first argument bounds the depth of
the calls of `GetAudio` to itself; `none` is a run that needs more. -/
def GetAudio {σ : Type} (W : World σ) : Nat → St σ → Option Ret × St σ
  | 0, s => (none, s)
  | fuel + 1, s =>
    match ensureToken W s with
    | (some err, s1) => (some (none, some err), s1)
    | (none, s1) => sendOrSplit W (GetAudio W fuel) s1

/-- Lines 71-79: `Creation.GetAudioNoVoiceId`; `IDs` is the table `voices.IDs`.
`tmpArg := arg` copies the pointer, so `tmpArg.VoiceId = id` writes the
caller's `SpeakArg`. -/
def GetAudioNoVoiceId {σ : Type} (W : World σ) (IDs : String → Option String)
    (fuel : Nat) (s : St σ) : Option Ret × St σ :=
  let id := (IDs s.arg.VoiceName).getD ""
  if id = "" then (some (none, some .NotSupportedVoiceErr), s)
  else GetAudio W fuel { s with arg := { s.arg with VoiceId := id } }

/-! ## Vocabulary of the properties -/

/-- Calling `call` once per chunk by hand, in order, on the request with its
text replaced by the chunk, and keeping every answer. -/
def callEach {σ : Type} (call : St σ → Option Ret × St σ) :
    List String → St σ → List (Option Ret) × St σ
  | [], s => ([], s)
  | v :: vs, s =>
    let r := call (setText s v)
    let rest := callEach call vs r.2
    (r.1 :: rest.1, rest.2)

/-- The answer of a call that returned `data` and a nil error. -/
def okAnswer (data : Option Bytes) : Option Ret := some (data, none)

/-- The synthesis endpoint answers every request with status 200 and a
readable body. -/
def NeverFails {σ : Type} (W : World σ) : Prop :=
  ∀ req n, ∃ data, (W.httpDo req n).1 = .ok ⟨200, .ok data⟩

/-- The synthesis endpoint answers every request with status 401. -/
def AlwaysUnauthorized {σ : Type} (W : World σ) : Prop :=
  ∀ req n, ∃ body, (W.httpDo req n).1 = .ok ⟨401, body⟩

/-- Every fetch of the token succeeds. -/
def TokenAlwaysGiven {σ : Type} (W : World σ) : Prop :=
  ∀ s : St σ, (GetToken W s).1.2 = none

/-- Number of calls of `speak` in a log. -/
def synthCount : List Event → Nat
  | [] => 0
  | .tokenFetch :: l => synthCount l
  | .synth _ _ :: l => synthCount l + 1

/-- Number of chunks the spec gives for `L` codepoints: `ceil(L/290)`. -/
def ceilDiv290 (L : Nat) : Nat := (L + 289) / 290

/-- Lines 104-121 as a function of the exchange alone: what `speak` returns
for each outcome of `http.DefaultClient.Do`. -/
def classify (ex : Except LibErr Response) : Ret :=
  match ex with
  | .error e => (none, some (.lib e))
  | .ok resp =>
    if resp.StatusCode = 401 then (none, some .TokenErr)
    else
      match resp.Body with
      | .error e => (none, some (.lib e))
      | .ok data =>
        if resp.StatusCode ≠ 200 then (none, some (.errorsNew data))
        else (some data, none)

/-- The request `GetAudio` has `speak` send in state `s`. -/
def requestOf {σ : Type} (s : St σ) : Request :=
  speakRequest s.token s.arg.Text s.arg.VoiceName s.arg.VoiceId s.arg.Rate s.arg.Style
    s.arg.StyleDegree s.arg.Role s.arg.Volume s.arg.Format

/-- A remote side given by a script: the token endpoint always answers
`tokenStatus` with a JSON object whose fields are `fields`; the `n`-th call of
the synthesis endpoint (from 0) is answered with the status and body
`synth n`.  The state counts the synthesis calls. -/
def scriptedWorld (tokenStatus : Nat) (fields : String → Option String)
    (synth : Nat → Nat × Bytes) : World Nat :=
  { httpGet := fun _ n => (.ok ⟨tokenStatus, .ok []⟩, n)
    httpDo := fun _ n => (.ok ⟨(synth n).1, .ok (synth n).2⟩, n + 1)
    jsonDecode := fun _ => .ok fields }

/-- A JSON object with the one field `authToken`. -/
def authTokenField (tok : String) : String → Option String :=
  fun k => if k = "authToken" then some tok else none

/-- A JSON object without fields. -/
def noFields : String → Option String := fun _ => none

/-- A request for `voice` whose text is `n` copies of `c`. -/
def sampleArg (n : Nat) (c : Char) (voice : String) : SpeakArg :=
  { Text := String.mk (List.replicate n c), VoiceName := voice, VoiceId := "", Rate := "0%",
    Style := "general", StyleDegree := "1.0", Role := "default", Volume := "0%",
    Format := "audio-16khz-32kbitrate-mono-mp3" }

/-- A client holding `token` that is handed `a`, before any network activity. -/
def freshState (token : String) (a : SpeakArg) : St Nat :=
  { token := token, arg := a, net := 0, log := [] }

/-! ## Chunking -/

theorem chunkRunes_nil (n fuel : Nat) : chunkRunes n fuel [] = [] := by
  cases fuel <;> rfl

theorem chunkRunes_flatten {n : Nat} (hn : 0 < n) :
    ∀ (fuel : Nat) (cs : List Char), cs.length ≤ fuel → (chunkRunes n fuel cs).flatten = cs := by
  intro fuel
  induction fuel with
  | zero =>
    intro cs h
    have : cs = [] := List.length_eq_zero.mp (Nat.le_zero.mp h)
    subst this; rfl
  | succ fuel ih =>
    intro cs h
    cases cs with
    | nil => rfl
    | cons c cs =>
      have hlen : ((c :: cs).drop n).length ≤ fuel := by
        simp only [List.length_drop, List.length_cons] at h ⊢; omega
      simp only [chunkRunes, List.flatten_cons, ih _ hlen, List.take_append_drop]

theorem chunkRunes_mem_le (n : Nat) :
    ∀ (fuel : Nat) (cs p : List Char), p ∈ chunkRunes n fuel cs → p.length ≤ n := by
  intro fuel
  induction fuel with
  | zero => intro cs p hp; simp [chunkRunes] at hp
  | succ fuel ih =>
    intro cs p hp
    cases cs with
    | nil => simp [chunkRunes] at hp
    | cons c cs =>
      simp only [chunkRunes, List.mem_cons] at hp
      rcases hp with rfl | hp
      · simp only [List.length_take]; omega
      · exact ih _ _ hp

theorem chunkRunes_length {n : Nat} (hn : 0 < n) :
    ∀ (fuel : Nat) (cs : List Char), cs.length ≤ fuel →
      (chunkRunes n fuel cs).length = (cs.length + (n - 1)) / n := by
  intro fuel
  induction fuel with
  | zero =>
    intro cs h
    have : cs = [] := List.length_eq_zero.mp (Nat.le_zero.mp h)
    subst this
    simp only [chunkRunes, List.length_nil, Nat.zero_add]
    exact (Nat.div_eq_of_lt (by omega)).symm
  | succ fuel ih =>
    intro cs h
    cases cs with
    | nil =>
      simp only [chunkRunes, List.length_nil, Nat.zero_add]
      exact (Nat.div_eq_of_lt (by omega)).symm
    | cons c cs =>
      have hlen : ((c :: cs).drop n).length ≤ fuel := by
        simp only [List.length_drop, List.length_cons] at h ⊢; omega
      simp only [chunkRunes, List.length_cons, ih _ hlen, List.length_drop]
      simp only [List.length_cons] at h
      by_cases hk : n ≤ cs.length + 1
      · have e : cs.length + 1 + (n - 1) = (cs.length + 1 - n + (n - 1)) + n := by omega
        rw [e, Nat.add_div_right _ hn]
      · have e1 : cs.length + 1 - n + (n - 1) = n - 1 := by omega
        have e2 : cs.length + 1 + (n - 1) = cs.length + n := by omega
        rw [e1, e2, Nat.div_eq_of_lt (by omega), Nat.add_div_right _ hn,
          Nat.div_eq_of_lt (by omega)]

theorem chunkRunes_two {n : Nat} (fuel : Nat) (cs : List Char)
    (h1 : n < cs.length) (h2 : cs.length ≤ 2 * n) :
    chunkRunes n (fuel + 2) cs = [cs.take n, cs.drop n] := by
  cases cs with
  | nil => simp at h1
  | cons c cs =>
    have hd : ((c :: cs).drop n).length = cs.length + 1 - n := by simp
    cases hrest : (c :: cs).drop n with
    | nil => rw [hrest] at hd; simp at hd h1; omega
    | cons d ds =>
      have hd2 : (d :: ds).length ≤ n := by
        rw [← hrest, hd]; simp only [List.length_cons] at h2; omega
      simp only [chunkRunes, hrest, List.take_of_length_le hd2,
        List.drop_of_length_le hd2, chunkRunes_nil]

theorem ChunkString_length (s : String) :
    (ChunkString s 290).length = ceilDiv290 (RuneCountInString s) := by
  simp only [ChunkString, List.length_map, ceilDiv290, RuneCountInString, String.length]
  exact chunkRunes_length (by decide) _ _ (Nat.le_refl _)

theorem ChunkString_mem_le (s c : String) (h : c ∈ ChunkString s 290) :
    RuneCountInString c ≤ 290 := by
  simp only [ChunkString, List.mem_map] at h
  obtain ⟨p, hp, rfl⟩ := h
  exact chunkRunes_mem_le 290 _ _ _ hp

theorem ChunkString_join (s : String) : String.join (ChunkString s 290) = s := by
  rw [String.join_eq]
  simp only [ChunkString, List.map_map]
  have : (String.data ∘ String.mk) = (id : List Char → List Char) := rfl
  rw [this, List.map_id]
  show String.mk (chunkRunes 290 s.data.length s.data).flatten = s
  rw [chunkRunes_flatten (by decide) _ _ (Nat.le_refl _)]

theorem ChunkString_two (s : String) (h1 : 290 < RuneCountInString s)
    (h2 : RuneCountInString s ≤ 580) :
    (ChunkString s 290).map RuneCountInString = [290, RuneCountInString s - 290] := by
  have h1d : 290 < s.data.length := h1
  have h2d : s.data.length ≤ 2 * 290 := h2
  obtain ⟨k, hk⟩ : ∃ k, s.data.length = k + 2 := ⟨s.data.length - 2, by omega⟩
  have e : ChunkString s 290 = [String.mk (s.data.take 290), String.mk (s.data.drop 290)] := by
    show (chunkRunes 290 s.data.length s.data).map String.mk = _
    rw [hk, chunkRunes_two k s.data h1d h2d]
    rfl
  rw [e]
  show [(s.data.take 290).length, (s.data.drop 290).length] = [290, s.data.length - 290]
  rw [List.length_take, List.length_drop, Nat.min_eq_left (Nat.le_of_lt h1d)]

/-! ## Counting events -/

theorem synthCount_append (l1 l2 : List Event) :
    synthCount (l1 ++ l2) = synthCount l1 + synthCount l2 := by
  induction l1 with
  | nil => simp [synthCount]
  | cons ev l ih =>
    cases ev with
    | tokenFetch => simpa [synthCount] using ih
    | synth t a =>
      show synthCount (l ++ l2) + 1 = synthCount l + 1 + synthCount l2
      rw [ih]; omega

theorem synthCount_map_synth {α : Type} (l : List α) (t : α → String) (a : α → SpeakArg) :
    synthCount (l.map (fun c => Event.synth (t c) (a c))) = l.length := by
  induction l with
  | nil => rfl
  | cons x l ih => simp only [List.map_cons, synthCount, ih, List.length_cons]

/-! ## Facts about the transport and the token fetch -/

theorem speak_eq {σ : Type} (W : World σ)
    (token text voiceName VoiceId rate style styleDegree role volume format : String) (s : St σ) :
    speak W token text voiceName VoiceId rate style styleDegree role volume format s =
      (classify (W.httpDo (speakRequest token text voiceName VoiceId rate style styleDegree role
          volume format) s.net).1,
       { s with
        net := (W.httpDo (speakRequest token text voiceName VoiceId rate style styleDegree role
          volume format) s.net).2
        log := s.log ++ [Event.synth token
          ⟨text, voiceName, VoiceId, rate, style, styleDegree, role, volume, format⟩] }) := by
  unfold speak classify
  dsimp only
  split
  · rfl
  · split
    · rfl
    · split
      · rfl
      · split <;> rfl

theorem classify_nil_of_err (ex : Except LibErr Response) (e : GoError)
    (h : (classify ex).2 = some e) : (classify ex).1 = none := by
  unfold classify at h ⊢
  split
  · rfl
  · split
    · rfl
    · split
      · rfl
      · split
        · rfl
        · rename_i h3
          simp [*] at h

theorem callSpeak_eq {σ : Type} (W : World σ) (s : St σ) :
    callSpeak W s =
      (classify (W.httpDo (requestOf s) s.net).1,
       { s with net := (W.httpDo (requestOf s) s.net).2,
                log := s.log ++ [Event.synth s.token s.arg] }) := by
  unfold callSpeak requestOf
  rw [speak_eq]

theorem callSpeak_token {σ : Type} (W : World σ) (s : St σ) :
    (callSpeak W s).2.token = s.token := by
  rw [callSpeak_eq]

theorem callSpeak_arg {σ : Type} (W : World σ) (s : St σ) :
    (callSpeak W s).2.arg = s.arg := by
  rw [callSpeak_eq]

theorem callSpeak_log {σ : Type} (W : World σ) (s : St σ) :
    (callSpeak W s).2.log = s.log ++ [Event.synth s.token s.arg] := by
  rw [callSpeak_eq]

theorem callSpeak_nil_of_err {σ : Type} (W : World σ) (s : St σ) (e : GoError)
    (h : (callSpeak W s).1.2 = some e) : (callSpeak W s).1.1 = none := by
  rw [callSpeak_eq] at h ⊢
  exact classify_nil_of_err _ e h

theorem GetToken_snd {σ : Type} (W : World σ) (s : St σ) :
    (GetToken W s).2 =
      { s with net := (W.httpGet tokenUrl s.net).2, log := s.log ++ [Event.tokenFetch] } := by
  unfold GetToken
  dsimp only
  split
  · rfl
  · split
    · rfl
    · split
      · rfl
      · split <;> rfl

theorem GetToken_token {σ : Type} (W : World σ) (s : St σ) :
    (GetToken W s).2.token = s.token := by rw [GetToken_snd]

theorem GetToken_arg {σ : Type} (W : World σ) (s : St σ) :
    (GetToken W s).2.arg = s.arg := by rw [GetToken_snd]

theorem GetToken_log {σ : Type} (W : World σ) (s : St σ) :
    (GetToken W s).2.log = s.log ++ [Event.tokenFetch] := by rw [GetToken_snd]

/-! ## Unfolding `GetAudio` -/

theorem ensureToken_held {σ : Type} (W : World σ) (s : St σ) (h : s.token ≠ "") :
    ensureToken W s = (none, s) := by
  unfold ensureToken
  rw [if_neg h]

theorem ensureToken_fetch_ok {σ : Type} (W : World σ) (s : St σ) (h : s.token = "")
    (hok : (GetToken W s).1.2 = none) :
    ensureToken W s = (none, { (GetToken W s).2 with token := (GetToken W s).1.1 }) := by
  unfold ensureToken
  rw [if_pos h]
  dsimp only
  rw [hok]

theorem ensureToken_fetch_err {σ : Type} (W : World σ) (s : St σ) (h : s.token = "")
    (e : GoError) (herr : (GetToken W s).1.2 = some e) :
    ensureToken W s = (some e, (GetToken W s).2) := by
  unfold ensureToken
  rw [if_pos h]
  dsimp only
  rw [herr]

theorem ensureToken_arg {σ : Type} (W : World σ) (s : St σ) :
    (ensureToken W s).2.arg = s.arg := by
  unfold ensureToken
  split
  · dsimp only
    split <;> simp [GetToken_arg]
  · rfl

theorem GetAudio_of_ensured {σ : Type} (W : World σ) (fuel : Nat) (s s1 : St σ)
    (h : ensureToken W s = (none, s1)) :
    GetAudio W (fuel + 1) s = sendOrSplit W (GetAudio W fuel) s1 := by
  rw [GetAudio, h]

theorem GetAudio_of_ensure_err {σ : Type} (W : World σ) (fuel : Nat) (s s1 : St σ) (e : GoError)
    (h : ensureToken W s = (some e, s1)) :
    GetAudio W (fuel + 1) s = (some (none, some e), s1) := by
  rw [GetAudio, h]

theorem sendOrSplit_long {σ : Type} (W : World σ) (call : St σ → Option Ret × St σ) (s : St σ)
    (h : 300 < RuneCountInString s.arg.Text) :
    sendOrSplit W call s = chunkLoop call (ChunkString s.arg.Text 290) none s := by
  unfold sendOrSplit
  rw [if_pos h]

theorem sendOrSplit_retry {σ : Type} (W : World σ) (call : St σ → Option Ret × St σ) (s : St σ)
    (h : RuneCountInString s.arg.Text ≤ 300)
    (h401 : (callSpeak W s).1.2 = some GoError.TokenErr) :
    sendOrSplit W call s = call { (callSpeak W s).2 with token := "" } := by
  unfold sendOrSplit
  rw [if_neg (Nat.not_lt.mpr h)]
  dsimp only
  rw [h401]
  rfl

theorem sendOrSplit_done {σ : Type} (W : World σ) (call : St σ → Option Ret × St σ) (s : St σ)
    (h : RuneCountInString s.arg.Text ≤ 300)
    (hne : (callSpeak W s).1.2 ≠ some GoError.TokenErr) :
    sendOrSplit W call s = (some (callSpeak W s).1, (callSpeak W s).2) := by
  unfold sendOrSplit
  rw [if_neg (Nat.not_lt.mpr h)]
  dsimp only
  have : errorsIs (callSpeak W s).1.2 GoError.TokenErr = false := by
    unfold errorsIs
    simpa using hne
  rw [this]
  rfl

set_option maxRecDepth 100000

/-! ## Short texts: one synthesis call -/

/-- C3: a text of at most 300 codepoints (counted by `RuneCountInString`, not
in bytes), a held token, and a synthesis call that is not answered with
`TokenErr`: `GetAudio` does not chunk, makes exactly one synthesis call, which
carries the held token and the whole request, fetches no token, and returns
the bytes and the error of that call unchanged. -/
theorem GetAudio_short_text_one_call {σ : Type} (W : World σ) (fuel : Nat) (s : St σ)
    (htok : s.token ≠ "") (hlen : RuneCountInString s.arg.Text ≤ 300)
    (hauth : (callSpeak W s).1.2 ≠ some GoError.TokenErr) :
    (GetAudio W (fuel + 1) s).1 = some (callSpeak W s).1 ∧
    (GetAudio W (fuel + 1) s).2.log = s.log ++ [Event.synth s.token s.arg] ∧
    (GetAudio W (fuel + 1) s).2.token = s.token := by
  rw [GetAudio_of_ensured W fuel s s (ensureToken_held W s htok),
    sendOrSplit_done W _ s hlen hauth]
  exact ⟨rfl, callSpeak_log W s, callSpeak_token W s⟩

/-- C3 at concrete inputs: 150 copies of a three-byte character (450 bytes,
150 codepoints) go out in one call and the three bytes of the answer come
back; so do the empty text and a text of exactly 300 codepoints. -/
theorem GetAudio_short_text_one_call_witness :
    300 < (sampleArg 150 '你' "zh-CN-XiaoxiaoNeural").Text.utf8ByteSize ∧
    (GetAudio (scriptedWorld 200 noFields (fun _ => (200, [1, 2, 3]))) 1
        (freshState "tok" (sampleArg 150 '你' "zh-CN-XiaoxiaoNeural"))).1
      = some (some [1, 2, 3], none) ∧
    (GetAudio (scriptedWorld 200 noFields (fun _ => (200, [1, 2, 3]))) 1
        (freshState "tok" (sampleArg 150 '你' "zh-CN-XiaoxiaoNeural"))).2.log
      = [Event.synth "tok" (sampleArg 150 '你' "zh-CN-XiaoxiaoNeural")] ∧
    (GetAudio (scriptedWorld 200 noFields (fun _ => (200, [1, 2, 3]))) 1
        (freshState "tok" (sampleArg 0 'a' "v"))).2.log
      = [Event.synth "tok" (sampleArg 0 'a' "v")] ∧
    (GetAudio (scriptedWorld 200 noFields (fun _ => (200, [1, 2, 3]))) 1
        (freshState "tok" (sampleArg 300 'a' "v"))).2.log
      = [Event.synth "tok" (sampleArg 300 'a' "v")] :=
  ⟨by decide,
   (GetAudio_short_text_one_call (scriptedWorld 200 noFields (fun _ => (200, [1, 2, 3]))) 0
      (freshState "tok" (sampleArg 150 '你' "zh-CN-XiaoxiaoNeural"))
      (by decide) (by decide) (by decide)).1,
   (GetAudio_short_text_one_call (scriptedWorld 200 noFields (fun _ => (200, [1, 2, 3]))) 0
      (freshState "tok" (sampleArg 150 '你' "zh-CN-XiaoxiaoNeural"))
      (by decide) (by decide) (by decide)).2.1,
   (GetAudio_short_text_one_call (scriptedWorld 200 noFields (fun _ => (200, [1, 2, 3]))) 0
      (freshState "tok" (sampleArg 0 'a' "v")) (by decide) (by decide) (by decide)).2.1,
   (GetAudio_short_text_one_call (scriptedWorld 200 noFields (fun _ => (200, [1, 2, 3]))) 0
      (freshState "tok" (sampleArg 300 'a' "v")) (by decide) (by decide) (by decide)).2.1⟩

/-! ## Unknown voice -/

/-- C7: when `voices.IDs` has no identifier for the voice name (no entry, or
the empty string), `GetAudioNoVoiceId` returns nil audio and
`NotSupportedVoiceErr` at once, whatever the recursion budget, and leaves the
whole state as it was: nothing is added to the network log (no token fetch, no
synthesis call), the held token is unchanged, and so is the request, also when
it already carries a voice identifier. -/
theorem GetAudioNoVoiceId_unknown_voice {σ : Type} (W : World σ) (IDs : String → Option String)
    (fuel : Nat) (s : St σ)
    (h : IDs s.arg.VoiceName = none ∨ IDs s.arg.VoiceName = some "") :
    GetAudioNoVoiceId W IDs fuel s = (some (none, some GoError.NotSupportedVoiceErr), s) ∧
    (GetAudioNoVoiceId W IDs fuel s).2.log = s.log ∧
    (GetAudioNoVoiceId W IDs fuel s).2.token = s.token ∧
    (GetAudioNoVoiceId W IDs fuel s).2.arg = s.arg := by
  have e : GetAudioNoVoiceId W IDs fuel s
      = (some (none, some GoError.NotSupportedVoiceErr), s) := by
    unfold GetAudioNoVoiceId
    rcases h with h | h <;> simp [h]
  rw [e]
  exact ⟨rfl, rfl, rfl, rfl⟩

/-- C7 at a concrete input: a request that carries the identifier `"custom"`
for a voice the table does not know, on a client that holds a token. -/
theorem GetAudioNoVoiceId_unknown_voice_witness :
    GetAudioNoVoiceId (scriptedWorld 200 noFields (fun _ => (200, [1]))) noFields 5
        (freshState "tok" { sampleArg 2 'a' "nobody" with VoiceId := "custom" })
      = (some (none, some GoError.NotSupportedVoiceErr),
          freshState "tok" { sampleArg 2 'a' "nobody" with VoiceId := "custom" }) :=
  (GetAudioNoVoiceId_unknown_voice (scriptedWorld 200 noFields (fun _ => (200, [1]))) noFields 5
    (freshState "tok" { sampleArg 2 'a' "nobody" with VoiceId := "custom" }) (Or.inl rfl)).1

/-! ## Failed token fetch -/

theorem GetToken_status_err {σ : Type} (W : World σ) (s : St σ) (resp : Response)
    (h : (W.httpGet tokenUrl s.net).1 = .ok resp) (hs : resp.StatusCode ≠ 200) :
    (GetToken W s).1 = ("", some GoError.httpStatusCodeErr) := by
  unfold GetToken
  dsimp only
  rw [h]
  dsimp only
  rw [if_pos hs]

/-- C8: with an empty held token and a token fetch that fails with `e`,
`GetAudio` returns nil audio and `e` itself; its whole network activity is
that one fetch (no synthesis call, no second fetch); the held token is still
empty and the request is untouched.  A token endpoint that answers a status
other than 200 makes the fetch fail with `httpStatusCodeErr`. -/
theorem GetAudio_token_fetch_fails {σ : Type} (W : World σ) (fuel : Nat) (s : St σ) (e : GoError)
    (h0 : s.token = "") (herr : (GetToken W s).1.2 = some e) :
    (GetAudio W (fuel + 1) s).1 = some (none, some e) ∧
    (GetAudio W (fuel + 1) s).2.log = s.log ++ [Event.tokenFetch] ∧
    (GetAudio W (fuel + 1) s).2.token = "" ∧
    (GetAudio W (fuel + 1) s).2.arg = s.arg ∧
    (∀ resp, (W.httpGet tokenUrl s.net).1 = .ok resp → resp.StatusCode ≠ 200 →
      e = GoError.httpStatusCodeErr) := by
  rw [GetAudio_of_ensure_err W fuel s _ e (ensureToken_fetch_err W s h0 e herr)]
  refine ⟨rfl, GetToken_log W s, ?_, GetToken_arg W s, ?_⟩
  · show (GetToken W s).2.token = ""
    rw [GetToken_token, h0]
  · intro resp hr hs
    have := GetToken_status_err W s resp hr hs
    rw [this] at herr
    exact (Option.some.inj herr).symm

/-- C8 at a concrete input: the token endpoint answers 500. -/
theorem GetAudio_token_fetch_fails_witness :
    (GetAudio (scriptedWorld 500 noFields (fun _ => (200, [1]))) 3
        (freshState "" (sampleArg 2 'a' "v"))).1
      = some (none, some GoError.httpStatusCodeErr) ∧
    (GetAudio (scriptedWorld 500 noFields (fun _ => (200, [1]))) 3
        (freshState "" (sampleArg 2 'a' "v"))).2.log = [Event.tokenFetch] :=
  ⟨(GetAudio_token_fetch_fails (scriptedWorld 500 noFields (fun _ => (200, [1]))) 2
      (freshState "" (sampleArg 2 'a' "v")) GoError.httpStatusCodeErr rfl rfl).1,
   (GetAudio_token_fetch_fails (scriptedWorld 500 noFields (fun _ => (200, [1]))) 2
      (freshState "" (sampleArg 2 'a' "v")) GoError.httpStatusCodeErr rfl rfl).2.1⟩

/-! ## Classification of the synthesis answer -/

theorem classify_ok (status : Nat) (body : Bytes) :
    classify (.ok ⟨status, .ok body⟩) =
      if status = 401 then (none, some GoError.TokenErr)
      else if status = 200 then (some body, none)
      else (none, some (GoError.errorsNew body)) := by
  unfold classify
  dsimp only
  by_cases h1 : status = 401
  · rw [if_pos h1, if_pos h1]
  · rw [if_neg h1, if_neg h1]
    by_cases h2 : status = 200
    · rw [if_neg (not_not.mpr h2), if_pos h2]
    · rw [if_pos h2, if_neg h2]

/-- C10: when the exchange succeeds with status `status` and a readable body
`body`, `speak` returns `TokenErr` and no bytes for 401, the body and no error
for 200, and for any other status no bytes and a fresh error whose message is
the body.  `errors.Is(err, TokenErr)` holds for that result exactly when the
status is 401; an `errors.New` error is never `TokenErr`, also when its message
is "unauthorized".  So when the status is not 401, a `GetAudio` that reaches
this call with a text of at most 300 codepoints ends with the call's result,
after that one synthesis call, with the token it had when calling. -/
theorem speak_classifies_status {σ : Type} (W : World σ) (fuel : Nat) (s s1 : St σ)
    (status : Nat) (body : Bytes) (net1 : σ)
    (hresp : W.httpDo (requestOf s1) s1.net = (.ok ⟨status, .ok body⟩, net1)) :
    (callSpeak W s1).1 =
      (if status = 401 then (none, some GoError.TokenErr)
       else if status = 200 then (some body, none)
       else (none, some (GoError.errorsNew body))) ∧
    (errorsIs (callSpeak W s1).1.2 GoError.TokenErr = true ↔ status = 401) ∧
    (∀ msg, errorsIs (some (GoError.errorsNew msg)) GoError.TokenErr = false) ∧
    (GoError.errorsNew "unauthorized".toUTF8.toList).Error = GoError.TokenErr.Error ∧
    (status ≠ 401 → ensureToken W s = (none, s1) → RuneCountInString s1.arg.Text ≤ 300 →
      GetAudio W (fuel + 1) s =
        (some (callSpeak W s1).1,
         { s1 with net := net1, log := s1.log ++ [Event.synth s1.token s1.arg] })) := by
  have hc : (callSpeak W s1).1 =
      (if status = 401 then (none, some GoError.TokenErr)
       else if status = 200 then (some body, none)
       else (none, some (GoError.errorsNew body))) := by
    rw [callSpeak_eq, hresp]
    exact classify_ok status body
  have hiff : errorsIs (callSpeak W s1).1.2 GoError.TokenErr = true ↔ status = 401 := by
    rw [hc]
    unfold errorsIs
    by_cases h1 : status = 401
    · simp [h1]
    · by_cases h2 : status = 200 <;> simp [h1, h2]
  refine ⟨hc, hiff, fun msg => by simp [errorsIs], rfl, ?_⟩
  intro h401 hens hlen
  have hne : (callSpeak W s1).1.2 ≠ some GoError.TokenErr := by
    intro hh
    apply h401
    apply hiff.mp
    unfold errorsIs
    rw [hh]
    simp
  rw [GetAudio_of_ensured W fuel s s1 hens, sendOrSplit_done W _ s1 hlen hne]
  congr 1
  rw [callSpeak_eq, hresp]

/-- C10 at a concrete input: status 500 with the body "unauthorized". -/
theorem speak_classifies_status_witness :
    GetAudio (scriptedWorld 200 noFields (fun _ => (500, "unauthorized".toUTF8.toList))) 1
        (freshState "tok" (sampleArg 2 'a' "v"))
      = (some (none, some (GoError.errorsNew "unauthorized".toUTF8.toList)),
         { token := "tok", arg := sampleArg 2 'a' "v", net := 1,
           log := [Event.synth "tok" (sampleArg 2 'a' "v")] }) :=
  (speak_classifies_status
    (scriptedWorld 200 noFields (fun _ => (500, "unauthorized".toUTF8.toList))) 0
    (freshState "tok" (sampleArg 2 'a' "v")) (freshState "tok" (sampleArg 2 'a' "v"))
    500 "unauthorized".toUTF8.toList 1 rfl).2.2.2.2 (by decide) rfl (by decide)

/-! ## The chunk loop against calls made one by one -/

theorem bytesOf_goAppend (audio data : Option Bytes) :
    bytesOf (goAppend audio data) = bytesOf audio ++ bytesOf data := by
  cases audio with
  | none =>
    cases data with
    | none => rfl
    | some d => cases d <;> rfl
  | some a =>
    cases data with
    | none => simp [goAppend, bytesOf]
    | some d => rfl

theorem bytesOf_foldl_goAppend (ds : List (Option Bytes)) :
    ∀ audio, bytesOf (ds.foldl goAppend audio) = bytesOf audio ++ (ds.map bytesOf).flatten := by
  induction ds with
  | nil => intro audio; simp
  | cons d ds ih =>
    intro audio
    simp only [List.foldl_cons, ih, bytesOf_goAppend, List.map_cons, List.flatten_cons,
      List.append_assoc]

theorem callEach_cons_ok {σ : Type} (call : St σ → Option Ret × St σ) (v : String)
    (vs : List String) (s s2 : St σ) (ds : List (Option Bytes))
    (h : callEach call (v :: vs) s = (ds.map okAnswer, s2)) :
    ∃ d ds1, ds = d :: ds1 ∧ call (setText s v) = (some (d, none), (call (setText s v)).2) ∧
      callEach call vs (call (setText s v)).2 = (ds1.map okAnswer, s2) := by
  simp only [callEach, Prod.mk.injEq] at h
  obtain ⟨h1, h2⟩ := h
  cases ds with
  | nil => simp at h1
  | cons d ds1 =>
    simp only [List.map_cons, List.cons.injEq] at h1
    refine ⟨d, ds1, rfl, ?_, ?_⟩
    · exact Prod.ext h1.1 rfl
    · exact Prod.ext h1.2 h2

theorem chunkLoop_of_callEach {σ : Type} (call : St σ → Option Ret × St σ) :
    ∀ (cs : List String) (ds : List (Option Bytes)) (audio : Option Bytes) (s s2 : St σ),
      callEach call cs s = (ds.map okAnswer, s2) →
      chunkLoop call cs audio s = (some (ds.foldl goAppend audio, none), s2) := by
  intro cs
  induction cs with
  | nil =>
    intro ds audio s s2 h
    simp only [callEach, Prod.mk.injEq] at h
    obtain ⟨h1, h2⟩ := h
    have : ds = [] := by
      cases ds with
      | nil => rfl
      | cons d ds => simp at h1
    subst this
    subst h2
    rfl
  | cons v vs ih =>
    intro ds audio s s2 h
    obtain ⟨d, ds1, rfl, hcall, hrest⟩ := callEach_cons_ok call v vs s s2 ds h
    rw [chunkLoop, hcall]
    exact ih ds1 (goAppend audio d) _ s2 hrest

theorem chunkLoop_fail_fast {σ : Type} (call : St σ → Option Ret × St σ) :
    ∀ (pre : List String) (v : String) (post : List String) (ds : List (Option Bytes))
      (audio a : Option Bytes) (e : GoError) (s sk sk1 : St σ),
      callEach call pre s = (ds.map okAnswer, sk) →
      call (setText sk v) = (some (a, some e), sk1) →
      chunkLoop call (pre ++ v :: post) audio s = (some (none, some e), sk1) := by
  intro pre
  induction pre with
  | nil =>
    intro v post ds audio a e s sk sk1 h hk
    simp only [callEach, Prod.mk.injEq] at h
    obtain ⟨_, h2⟩ := h
    subst h2
    rw [List.nil_append, chunkLoop, hk]
  | cons p pre ih =>
    intro v post ds audio a e s sk sk1 h hk
    obtain ⟨d, ds1, rfl, hcall, hrest⟩ := callEach_cons_ok call p pre s sk ds h
    rw [List.cons_append, chunkLoop, hcall]
    exact ih v post ds1 (goAppend audio d) a e _ sk sk1 hrest hk

theorem chunkLoop_err_nil {σ : Type} (call : St σ → Option Ret × St σ) :
    ∀ (cs : List String) (audio : Option Bytes) (s : St σ) (a : Option Bytes) (e : GoError),
      (chunkLoop call cs audio s).1 = some (a, some e) → a = none := by
  intro cs
  induction cs with
  | nil =>
    intro audio s a e h
    simp [chunkLoop] at h
  | cons v vs ih =>
    intro audio s a e h
    rw [chunkLoop] at h
    split at h
    · simp at h
    · simp only [Option.some.injEq, Prod.mk.injEq] at h
      exact h.1.symm
    · exact ih _ _ a e h

theorem GetAudio_err_nil {σ : Type} (W : World σ) :
    ∀ (fuel : Nat) (s : St σ) (a : Option Bytes) (e : GoError),
      (GetAudio W fuel s).1 = some (a, some e) → a = none := by
  intro fuel
  induction fuel with
  | zero => intro s a e h; simp [GetAudio] at h
  | succ fuel ih =>
    intro s a e h
    rw [GetAudio] at h
    split at h
    · simp only [Option.some.injEq, Prod.mk.injEq] at h
      exact h.1.symm
    · rename_i s1 _
      unfold sendOrSplit at h
      split at h
      · exact chunkLoop_err_nil _ _ _ _ a e h
      · dsimp only at h
        split at h
        · exact ih _ a e h
        · simp only [Option.some.injEq] at h
          have h1 := callSpeak_nil_of_err W s1 e (by rw [h])
          rw [h] at h1
          exact h1

/-- C4: for a text of more than 300 codepoints, let `s1` be the state once the
token is ensured, where the loop over the chunks starts.  If calling
`GetAudio` by hand once per chunk from `s1`, in chunk order, on the request
with its text replaced by the chunk, returns the slices `ds` with nil errors
and ends in `s2`, then `GetAudio` on the whole request returns a nil error and
ends in `s2` too; the bytes it returns are the bytes of `ds` concatenated in
chunk order, and their number is the sum of the lengths of the answers.  With
a held token `s1` is the caller's own state. -/
theorem GetAudio_chunked_is_concat_of_chunk_calls {σ : Type} (W : World σ) (fuel : Nat)
    (s s1 s2 : St σ) (ds : List (Option Bytes))
    (hlen : 300 < RuneCountInString s.arg.Text)
    (hens : ensureToken W s = (none, s1))
    (hcalls : callEach (GetAudio W fuel) (ChunkString s.arg.Text 290) s1
      = (ds.map okAnswer, s2)) :
    GetAudio W (fuel + 1) s = (some (ds.foldl goAppend none, none), s2) ∧
    bytesOf (ds.foldl goAppend none) = (ds.map bytesOf).flatten ∧
    (bytesOf (ds.foldl goAppend none)).length = (ds.map (fun d => (bytesOf d).length)).sum ∧
    (s.token ≠ "" → s1 = s) := by
  have harg : s1.arg = s.arg := by
    have := ensureToken_arg W s
    rw [hens] at this
    exact this
  have hb : bytesOf (ds.foldl goAppend none) = (ds.map bytesOf).flatten := by
    rw [bytesOf_foldl_goAppend]; rfl
  refine ⟨?_, hb, ?_, ?_⟩
  · rw [GetAudio_of_ensured W fuel s s1 hens, sendOrSplit_long W _ s1 (by rw [harg]; exact hlen),
      harg]
    exact chunkLoop_of_callEach _ _ ds none s1 s2 hcalls
  · rw [hb, List.length_flatten, List.map_map]
    rfl
  · intro h
    have := ensureToken_held W s h
    rw [hens] at this
    exact (Prod.mk.inj this).2

/-- C4 at a concrete input: 305 codepoints, the first synthesis call answered
with one byte and the second with two. -/
theorem GetAudio_chunked_is_concat_of_chunk_calls_witness :
    GetAudio (scriptedWorld 200 noFields (fun n => (200, List.replicate (n + 1) 7))) 2
        (freshState "tok" (sampleArg 305 'a' "v"))
      = (some (some [7, 7, 7], none),
         { token := "tok", arg := sampleArg 15 'a' "v", net := 2,
           log := [Event.synth "tok" (sampleArg 290 'a' "v"),
                   Event.synth "tok" (sampleArg 15 'a' "v")] }) :=
  (GetAudio_chunked_is_concat_of_chunk_calls
    (scriptedWorld 200 noFields (fun n => (200, List.replicate (n + 1) 7))) 1
    (freshState "tok" (sampleArg 305 'a' "v")) (freshState "tok" (sampleArg 305 'a' "v"))
    { token := "tok", arg := sampleArg 15 'a' "v", net := 2,
      log := [Event.synth "tok" (sampleArg 290 'a' "v"),
              Event.synth "tok" (sampleArg 15 'a' "v")] }
    [some [7], some [7, 7]] (by decide) rfl rfl).1

/-- C6: whenever `GetAudio` returns a non-nil error, the audio it returns is
nil.  For a text of more than 300 codepoints whose chunks are
`pre ++ v :: post`: if, from the state `s1` where the loop starts, the calls
for the chunks of `pre` return nil errors and the call for `v` returns the
error `e` in state `sk1`, then `GetAudio` returns nil audio and `e` itself and
ends in `sk1`, the state in which the call for `v` returned, so nothing is
sent for the chunks of `post`. -/
theorem GetAudio_no_partial_result {σ : Type} (W : World σ) (fuel : Nat) (s : St σ) :
    (∀ a e, (GetAudio W fuel s).1 = some (a, some e) → a = none) ∧
    (∀ (s1 sk sk1 : St σ) (pre post : List String) (v : String) (ds : List (Option Bytes))
        (a : Option Bytes) (e : GoError),
      300 < RuneCountInString s.arg.Text →
      ensureToken W s = (none, s1) →
      ChunkString s.arg.Text 290 = pre ++ v :: post →
      callEach (GetAudio W fuel) pre s1 = (ds.map okAnswer, sk) →
      GetAudio W fuel (setText sk v) = (some (a, some e), sk1) →
      GetAudio W (fuel + 1) s = (some (none, some e), sk1)) := by
  refine ⟨GetAudio_err_nil W fuel s, ?_⟩
  intro s1 sk sk1 pre post v ds a e hlen hens hchunks hpre hv
  have harg : s1.arg = s.arg := by
    have := ensureToken_arg W s
    rw [hens] at this
    exact this
  rw [GetAudio_of_ensured W fuel s s1 hens, sendOrSplit_long W _ s1 (by rw [harg]; exact hlen),
    harg, hchunks]
  exact chunkLoop_fail_fast _ pre v post ds none a e s1 sk sk1 hpre hv

/-- C6 at a concrete input: 600 codepoints in three chunks; the second
synthesis call is answered 500 with body `[5]`, the first and any later one
200 with body `[1]`. -/
theorem GetAudio_no_partial_result_witness :
    GetAudio (scriptedWorld 200 noFields (fun n => if n = 1 then (500, [5]) else (200, [1]))) 2
        (freshState "tok" (sampleArg 600 'a' "v"))
      = (some (none, some (GoError.errorsNew [5])),
         { token := "tok", arg := sampleArg 290 'a' "v", net := 2,
           log := [Event.synth "tok" (sampleArg 290 'a' "v"),
                   Event.synth "tok" (sampleArg 290 'a' "v")] }) :=
  (GetAudio_no_partial_result
    (scriptedWorld 200 noFields (fun n => if n = 1 then (500, [5]) else (200, [1]))) 1
    (freshState "tok" (sampleArg 600 'a' "v"))).2
    (freshState "tok" (sampleArg 600 'a' "v"))
    { token := "tok", arg := sampleArg 290 'a' "v", net := 1,
      log := [Event.synth "tok" (sampleArg 290 'a' "v")] }
    { token := "tok", arg := sampleArg 290 'a' "v", net := 2,
      log := [Event.synth "tok" (sampleArg 290 'a' "v"),
              Event.synth "tok" (sampleArg 290 'a' "v")] }
    [(sampleArg 290 'a' "v").Text] [(sampleArg 20 'a' "v").Text] (sampleArg 290 'a' "v").Text
    [some [1]] none (GoError.errorsNew [5]) (by decide) rfl rfl rfl rfl

/-! ## Long texts against an endpoint that never fails -/

theorem callSpeak_neverFails {σ : Type} (W : World σ) (hW : NeverFails W) (s : St σ) :
    ∃ data, (callSpeak W s).1 = (some data, none) := by
  obtain ⟨data, hd⟩ := hW (requestOf s) s.net
  refine ⟨data, ?_⟩
  rw [callSpeak_eq, hd]
  rfl

theorem GetAudio_neverFails_short {σ : Type} (W : World σ) (hW : NeverFails W) (fuel : Nat)
    (s : St σ) (htok : s.token ≠ "") (hlen : RuneCountInString s.arg.Text ≤ 300) :
    ∃ data, GetAudio W (fuel + 1) s = (some (some data, none), (callSpeak W s).2) := by
  obtain ⟨data, hd⟩ := callSpeak_neverFails W hW s
  refine ⟨data, ?_⟩
  have hne : (callSpeak W s).1.2 ≠ some GoError.TokenErr := by rw [hd]; simp
  rw [GetAudio_of_ensured W fuel s s (ensureToken_held W s htok),
    sendOrSplit_done W _ s hlen hne, hd]

theorem chunkLoop_neverFails {σ : Type} (W : World σ) (hW : NeverFails W) (fuel : Nat)
    (tok : String) (htok : tok ≠ "") (a0 : SpeakArg) :
    ∀ (cs : List String) (audio : Option Bytes) (s : St σ),
      (∀ c ∈ cs, RuneCountInString c ≤ 300) → s.token = tok →
      (∀ c, { s.arg with Text := c } = { a0 with Text := c }) →
      ∃ out s2, chunkLoop (GetAudio W (fuel + 1)) cs audio s = (some (out, none), s2) ∧
        s2.log = s.log ++ cs.map (fun c => Event.synth tok { a0 with Text := c }) := by
  intro cs
  induction cs with
  | nil =>
    intro audio s _ _ _
    exact ⟨audio, s, rfl, by simp⟩
  | cons v vs ih =>
    intro audio s hcs hs ha
    have hv : RuneCountInString (setText s v).arg.Text ≤ 300 := hcs v (List.mem_cons_self _ _)
    have htk : (setText s v).token ≠ "" := by
      show s.token ≠ ""
      rw [hs]; exact htok
    obtain ⟨data, hd⟩ := GetAudio_neverFails_short W hW fuel (setText s v) htk hv
    have h1 : (callSpeak W (setText s v)).2.token = tok := by
      rw [callSpeak_token]; exact hs
    have h2 : ∀ c, { (callSpeak W (setText s v)).2.arg with Text := c } = { a0 with Text := c } := by
      intro c
      rw [callSpeak_arg]
      exact ha c
    obtain ⟨out, s2, hloop, hlog⟩ :=
      ih (goAppend audio (some data)) (callSpeak W (setText s v)).2
        (fun c hc => hcs c (List.mem_cons_of_mem _ hc)) h1 h2
    refine ⟨out, s2, ?_, ?_⟩
    · rw [chunkLoop, hd]
      exact hloop
    · rw [hlog, callSpeak_log]
      have e1 : (setText s v).token = tok := hs
      have e2 : (setText s v).arg = { a0 with Text := v } := ha v
      have e3 : (setText s v).log = s.log := rfl
      rw [e1, e2, e3, List.map_cons, List.append_assoc]
      rfl

/-- C2: a text of `L > 300` codepoints, a held token, and a synthesis endpoint
that answers every request with 200 and a readable body.  The chunks are
`ceil(L/290)` pieces of at most 290 codepoints each that concatenate to the
text (two pieces of 290 and `L - 290` codepoints when `L ≤ 580`, so 290 and 11
for 301, and 290 and 15 for 305).  `GetAudio` returns a nil error, and its
network activity is exactly one synthesis call per chunk, in chunk order, each
carrying the held token and the request with the chunk as its text: no chunk
is split again and no token is fetched. -/
theorem GetAudio_long_text_one_call_per_chunk {σ : Type} (W : World σ) (fuel : Nat) (s : St σ)
    (hW : NeverFails W) (htok : s.token ≠ "")
    (hlen : 300 < RuneCountInString s.arg.Text) :
    (ChunkString s.arg.Text 290).length = ceilDiv290 (RuneCountInString s.arg.Text) ∧
    (∀ c ∈ ChunkString s.arg.Text 290, RuneCountInString c ≤ 290) ∧
    String.join (ChunkString s.arg.Text 290) = s.arg.Text ∧
    (RuneCountInString s.arg.Text ≤ 580 →
      (ChunkString s.arg.Text 290).map RuneCountInString
        = [290, RuneCountInString s.arg.Text - 290]) ∧
    (∃ out, (GetAudio W (fuel + 2) s).1 = some (out, none)) ∧
    (GetAudio W (fuel + 2) s).2.log = s.log ++
      (ChunkString s.arg.Text 290).map (fun c => Event.synth s.token { s.arg with Text := c }) ∧
    synthCount (GetAudio W (fuel + 2) s).2.log
      = synthCount s.log + ceilDiv290 (RuneCountInString s.arg.Text) := by
  have hchunks : ∀ c ∈ ChunkString s.arg.Text 290, RuneCountInString c ≤ 290 :=
    fun c hc => ChunkString_mem_le _ c hc
  obtain ⟨out, s2, hloop, hlog⟩ :=
    chunkLoop_neverFails W hW fuel s.token htok s.arg (ChunkString s.arg.Text 290) none s
      (fun c hc => Nat.le_trans (hchunks c hc) (by decide)) rfl (fun _ => rfl)
  have hrun : GetAudio W (fuel + 2) s = (some (out, none), s2) := by
    rw [GetAudio_of_ensured W (fuel + 1) s s (ensureToken_held W s htok),
      sendOrSplit_long W _ s hlen]
    exact hloop
  refine ⟨ChunkString_length _, hchunks, ChunkString_join _,
    fun h => ChunkString_two _ (Nat.lt_trans (by decide) hlen) h, ⟨out, by rw [hrun]⟩, ?_, ?_⟩
  · rw [hrun]; exact hlog
  · rw [hrun]
    show synthCount s2.log = _
    rw [hlog, synthCount_append, synthCount_map_synth, ChunkString_length]

/-- C2 at concrete inputs: 301 codepoints go out as 290 and 11, and 305 as 290
and 15, in two synthesis calls each. -/
theorem GetAudio_long_text_one_call_per_chunk_witness :
    ((ChunkString (sampleArg 301 'a' "v").Text 290).map RuneCountInString = [290, 11] ∧
      (GetAudio (scriptedWorld 200 noFields (fun _ => (200, [1]))) 2
          (freshState "tok" (sampleArg 301 'a' "v"))).2.log
        = [Event.synth "tok" (sampleArg 290 'a' "v"), Event.synth "tok" (sampleArg 11 'a' "v")]) ∧
    ((ChunkString (sampleArg 305 'a' "v").Text 290).map RuneCountInString = [290, 15] ∧
      (GetAudio (scriptedWorld 200 noFields (fun _ => (200, [1]))) 2
          (freshState "tok" (sampleArg 305 'a' "v"))).2.log
        = [Event.synth "tok" (sampleArg 290 'a' "v"), Event.synth "tok" (sampleArg 15 'a' "v")]) :=
  ⟨⟨(GetAudio_long_text_one_call_per_chunk (scriptedWorld 200 noFields (fun _ => (200, [1]))) 0
        (freshState "tok" (sampleArg 301 'a' "v")) (fun _ _ => ⟨[1], rfl⟩) (by decide)
        (by decide)).2.2.2.1 (by decide),
    (GetAudio_long_text_one_call_per_chunk (scriptedWorld 200 noFields (fun _ => (200, [1]))) 0
        (freshState "tok" (sampleArg 301 'a' "v")) (fun _ _ => ⟨[1], rfl⟩) (by decide)
        (by decide)).2.2.2.2.2.1⟩,
   ⟨(GetAudio_long_text_one_call_per_chunk (scriptedWorld 200 noFields (fun _ => (200, [1]))) 0
        (freshState "tok" (sampleArg 305 'a' "v")) (fun _ _ => ⟨[1], rfl⟩) (by decide)
        (by decide)).2.2.2.1 (by decide),
    (GetAudio_long_text_one_call_per_chunk (scriptedWorld 200 noFields (fun _ => (200, [1]))) 0
        (freshState "tok" (sampleArg 305 'a' "v")) (fun _ _ => ⟨[1], rfl⟩) (by decide)
        (by decide)).2.2.2.2.2.1⟩⟩

/-! ## The log only grows -/

theorem chunkLoop_log_grows {σ : Type} (call : St σ → Option Ret × St σ)
    (hcall : ∀ s, ∃ l, (call s).2.log = s.log ++ l) :
    ∀ (cs : List String) (audio : Option Bytes) (s : St σ),
      ∃ l, (chunkLoop call cs audio s).2.log = s.log ++ l := by
  intro cs
  induction cs with
  | nil => intro audio s; exact ⟨[], by simp [chunkLoop]⟩
  | cons v vs ih =>
    intro audio s
    obtain ⟨l1, h1⟩ := hcall (setText s v)
    have h1s : (call (setText s v)).2.log = s.log ++ l1 := h1
    rw [chunkLoop]
    split
    · rename_i s1 heq
      rw [heq] at h1s
      exact ⟨l1, h1s⟩
    · rename_i s1 heq
      rw [heq] at h1s
      exact ⟨l1, h1s⟩
    · rename_i data s1 heq
      rw [heq] at h1s
      obtain ⟨l2, h2⟩ := ih (goAppend audio data) s1
      refine ⟨l1 ++ l2, ?_⟩
      rw [h2]
      show s1.log ++ l2 = _
      rw [h1s, List.append_assoc]

theorem chunkLoop_cons_log {σ : Type} (call : St σ → Option Ret × St σ)
    (hcall : ∀ s, ∃ l, (call s).2.log = s.log ++ l)
    (v : String) (vs : List String) (audio : Option Bytes) (s : St σ) :
    ∃ l, (chunkLoop call (v :: vs) audio s).2.log = (call (setText s v)).2.log ++ l := by
  rw [chunkLoop]
  split
  · rename_i s1 heq
    exact ⟨[], by rw [heq]; simp⟩
  · rename_i s1 heq
    exact ⟨[], by rw [heq]; simp⟩
  · rename_i data s1 heq
    obtain ⟨l2, h2⟩ := chunkLoop_log_grows call hcall vs (goAppend audio data) s1
    exact ⟨l2, by rw [heq]; exact h2⟩

theorem sendOrSplit_short_log {σ : Type} (W : World σ) (call : St σ → Option Ret × St σ)
    (hcall : ∀ s, ∃ l, (call s).2.log = s.log ++ l) (s : St σ)
    (h : RuneCountInString s.arg.Text ≤ 300) :
    ∃ rest, (sendOrSplit W call s).2.log = s.log ++ Event.synth s.token s.arg :: rest := by
  by_cases h401 : (callSpeak W s).1.2 = some GoError.TokenErr
  · rw [sendOrSplit_retry W call s h h401]
    obtain ⟨l, hl⟩ := hcall { (callSpeak W s).2 with token := "" }
    refine ⟨l, ?_⟩
    rw [hl]
    show (callSpeak W s).2.log ++ l = _
    rw [callSpeak_log, List.append_assoc]
    rfl
  · rw [sendOrSplit_done W call s h h401]
    exact ⟨[], callSpeak_log W s⟩

theorem ensureToken_log_grows {σ : Type} (W : World σ) (s : St σ) :
    ∃ l, (ensureToken W s).2.log = s.log ++ l := by
  unfold ensureToken
  split
  · dsimp only
    split
    · exact ⟨[Event.tokenFetch], GetToken_log W s⟩
    · exact ⟨[Event.tokenFetch], GetToken_log W s⟩
  · exact ⟨[], by simp⟩

theorem GetAudio_log_grows {σ : Type} (W : World σ) :
    ∀ (fuel : Nat) (s : St σ), ∃ l, (GetAudio W fuel s).2.log = s.log ++ l := by
  intro fuel
  induction fuel with
  | zero => intro s; exact ⟨[], by simp [GetAudio]⟩
  | succ fuel ih =>
    intro s
    obtain ⟨l0, h0⟩ := ensureToken_log_grows W s
    rw [GetAudio]
    split
    · rename_i err s1 heq
      rw [heq] at h0
      exact ⟨l0, h0⟩
    · rename_i s1 heq
      rw [heq] at h0
      have h0s : s1.log = s.log ++ l0 := h0
      by_cases hlen : 300 < RuneCountInString s1.arg.Text
      · rw [sendOrSplit_long W _ s1 hlen]
        obtain ⟨l, hl⟩ := chunkLoop_log_grows (GetAudio W fuel) ih
          (ChunkString s1.arg.Text 290) none s1
        exact ⟨l0 ++ l, by rw [hl, h0s, List.append_assoc]⟩
      · obtain ⟨rest, hr⟩ := sendOrSplit_short_log W (GetAudio W fuel) ih s1 (Nat.not_lt.mp hlen)
        exact ⟨l0 ++ Event.synth s1.token s1.arg :: rest, by rw [hr, h0s, List.append_assoc]⟩

theorem ChunkString_cons_of_long (t : String) (h : 300 < RuneCountInString t) :
    ∃ v vs, ChunkString t 290 = v :: vs ∧ RuneCountInString v ≤ 300 := by
  have hl := ChunkString_length t
  cases hc : ChunkString t 290 with
  | nil =>
    rw [hc] at hl
    simp only [List.length_nil, ceilDiv290] at hl
    omega
  | cons v vs =>
    refine ⟨v, vs, rfl, ?_⟩
    have := ChunkString_mem_le t v (by rw [hc]; exact List.mem_cons_self _ _)
    omega

/-- C5, amended: with an empty held token and a token fetch that succeeds with
the token `tok`, the network activity of `GetAudio` starts with exactly one
token fetch followed by a synthesis call that carries `tok`, provided the text
has at most 300 codepoints or `tok` is not the empty string. -/
theorem GetAudio_one_fetch_before_first_synth {σ : Type} (W : World σ) (fuel : Nat) (s : St σ)
    (h0 : s.token = "") (hok : (GetToken W s).1.2 = none)
    (hcase : RuneCountInString s.arg.Text ≤ 300 ∨ (GetToken W s).1.1 ≠ "") :
    ∃ a rest, (GetAudio W (fuel + 2) s).2.log
      = s.log ++ Event.tokenFetch :: Event.synth (GetToken W s).1.1 a :: rest := by
  have hens := ensureToken_fetch_ok W s h0 hok
  rw [GetAudio_of_ensured W (fuel + 1) s _ hens]
  generalize hs1 : ({ (GetToken W s).2 with token := (GetToken W s).1.1 } : St σ) = s1
  have htok1 : s1.token = (GetToken W s).1.1 := by rw [← hs1]
  have harg1 : s1.arg = s.arg := by rw [← hs1]; exact GetToken_arg W s
  have hlog1 : s1.log = s.log ++ [Event.tokenFetch] := by rw [← hs1]; exact GetToken_log W s
  by_cases hlen : RuneCountInString s.arg.Text ≤ 300
  · obtain ⟨rest, hr⟩ := sendOrSplit_short_log W (GetAudio W (fuel + 1))
      (GetAudio_log_grows W (fuel + 1)) s1 (by rw [harg1]; exact hlen)
    refine ⟨s1.arg, rest, ?_⟩
    rw [hr, hlog1, htok1, List.append_assoc]
    rfl
  · have hlong : 300 < RuneCountInString s1.arg.Text := by rw [harg1]; omega
    have htokne : (GetToken W s).1.1 ≠ "" := by
      rcases hcase with h | h
      · exact absurd h hlen
      · exact h
    obtain ⟨v, vs, hvs, hv⟩ := ChunkString_cons_of_long s1.arg.Text hlong
    rw [sendOrSplit_long W _ s1 hlong, hvs]
    obtain ⟨l, hl⟩ := chunkLoop_cons_log (GetAudio W (fuel + 1))
      (GetAudio_log_grows W (fuel + 1)) v vs none s1
    have hheld : (setText s1 v).token ≠ "" := by
      show s1.token ≠ ""
      rw [htok1]; exact htokne
    obtain ⟨rest, hr⟩ := sendOrSplit_short_log W (GetAudio W fuel)
      (GetAudio_log_grows W fuel) (setText s1 v) hv
    refine ⟨(setText s1 v).arg, rest ++ l, ?_⟩
    rw [hl, GetAudio_of_ensured W fuel (setText s1 v) _ (ensureToken_held W _ hheld), hr]
    show s1.log ++ Event.synth s1.token (setText s1 v).arg :: rest ++ l = _
    rw [hlog1, htok1]
    simp

/-- C5 at a concrete input: 301 codepoints, no held token, and a token endpoint
that gives the token "t". -/
theorem GetAudio_one_fetch_before_first_synth_witness :
    ∃ a rest,
      (GetAudio (scriptedWorld 200 (authTokenField "t") (fun _ => (200, [1]))) 2
          (freshState "" (sampleArg 301 'a' "v"))).2.log
        = [] ++ Event.tokenFetch :: Event.synth "t" a :: rest :=
  GetAudio_one_fetch_before_first_synth
    (scriptedWorld 200 (authTokenField "t") (fun _ => (200, [1]))) 0
    (freshState "" (sampleArg 301 'a' "v")) rfl rfl (Or.inr (by decide))

/-- C5 as stated fails: 301 codepoints, no held token, and a token endpoint
whose JSON object has no `authToken` field.  Every fetch succeeds with the
empty token, so the call for the first chunk finds the held token empty and
fetches again: two token fetches come before the first synthesis call. -/
theorem GetAudio_two_fetches_before_first_synth :
    (GetToken (scriptedWorld 200 noFields (fun _ => (200, [1])))
        (freshState "" (sampleArg 301 'a' "v"))).1 = ("", none) ∧
    (GetAudio (scriptedWorld 200 noFields (fun _ => (200, [1]))) 2
        (freshState "" (sampleArg 301 'a' "v"))).1 = some (some [1, 1], none) ∧
    (GetAudio (scriptedWorld 200 noFields (fun _ => (200, [1]))) 2
        (freshState "" (sampleArg 301 'a' "v"))).2.log
      = [Event.tokenFetch, Event.tokenFetch, Event.synth "" (sampleArg 290 'a' "v"),
         Event.tokenFetch, Event.synth "" (sampleArg 11 'a' "v")] ∧
    ¬ ∃ tok a rest,
      (GetAudio (scriptedWorld 200 noFields (fun _ => (200, [1]))) 2
          (freshState "" (sampleArg 301 'a' "v"))).2.log
        = Event.tokenFetch :: Event.synth tok a :: rest := by
  have hlog : (GetAudio (scriptedWorld 200 noFields (fun _ => (200, [1]))) 2
        (freshState "" (sampleArg 301 'a' "v"))).2.log
      = [Event.tokenFetch, Event.tokenFetch, Event.synth "" (sampleArg 290 'a' "v"),
         Event.tokenFetch, Event.synth "" (sampleArg 11 'a' "v")] := rfl
  refine ⟨rfl, rfl, hlog, ?_⟩
  rintro ⟨tok, a, rest, h⟩
  rw [hlog] at h
  simp at h

/-! ## Unauthorized answers -/

theorem callSpeak_unauthorized {σ : Type} (W : World σ) (hA : AlwaysUnauthorized W) (s : St σ) :
    (callSpeak W s).1 = (none, some GoError.TokenErr) := by
  obtain ⟨body, hb⟩ := hA (requestOf s) s.net
  rw [callSpeak_eq, hb]
  simp [classify]

theorem ensureToken_given {σ : Type} (W : World σ) (hT : TokenAlwaysGiven W) (s : St σ) :
    ∃ s1, ensureToken W s = (none, s1) ∧ s1.arg = s.arg ∧
      synthCount s1.log = synthCount s.log := by
  by_cases h : s.token = ""
  · refine ⟨_, ensureToken_fetch_ok W s h (hT s), GetToken_arg W s, ?_⟩
    show synthCount (GetToken W s).2.log = _
    rw [GetToken_log, synthCount_append]
    rfl
  · exact ⟨s, ensureToken_held W s h, rfl, rfl⟩

theorem ensureToken_of_empty {σ : Type} (W : World σ) (c s2 : St σ) (h0 : c.token = "")
    (h : ensureToken W c = (none, s2)) :
    s2.log = c.log ++ [Event.tokenFetch] ∧ s2.arg = c.arg := by
  unfold ensureToken at h
  rw [if_pos h0] at h
  dsimp only at h
  split at h
  · simp at h
  · simp only [Prod.mk.injEq, true_and] at h
    subst h
    exact ⟨GetToken_log W c, GetToken_arg W c⟩

theorem GetAudio_unauthorized_forever {σ : Type} (W : World σ) (hA : AlwaysUnauthorized W)
    (hT : TokenAlwaysGiven W) :
    ∀ (fuel : Nat) (s : St σ), RuneCountInString s.arg.Text ≤ 300 →
      (GetAudio W fuel s).1 = none ∧
      synthCount (GetAudio W fuel s).2.log = synthCount s.log + fuel := by
  intro fuel
  induction fuel with
  | zero => intro s _; exact ⟨rfl, rfl⟩
  | succ fuel ih =>
    intro s hlen
    obtain ⟨s1, hens, harg, hcount⟩ := ensureToken_given W hT s
    have h401 : (callSpeak W s1).1.2 = some GoError.TokenErr := by
      rw [callSpeak_unauthorized W hA s1]
    have hlen1 : RuneCountInString s1.arg.Text ≤ 300 := by rw [harg]; exact hlen
    rw [GetAudio_of_ensured W fuel s s1 hens, sendOrSplit_retry W _ s1 hlen1 h401]
    have hlen2 : RuneCountInString
        ({ (callSpeak W s1).2 with token := "" } : St σ).arg.Text ≤ 300 := by
      show RuneCountInString (callSpeak W s1).2.arg.Text ≤ 300
      rw [callSpeak_arg]; exact hlen1
    obtain ⟨i1, i2⟩ := ih _ hlen2
    refine ⟨i1, ?_⟩
    rw [i2]
    show synthCount (callSpeak W s1).2.log + fuel = _
    rw [callSpeak_log, synthCount_append, hcount]
    show synthCount s.log + 1 + fuel = _
    omega

/-- C1, amended: let `s1` be the state once the token is ensured and let the
synthesis call made there, for a text of at most 300 codepoints, return
`TokenErr`.  Then the held token is cleared and `GetAudio` calls itself again,
after exactly that one synthesis call.  If the retry, once its token is
fetched, is answered with anything but `TokenErr`, that answer is the result of
the whole call, after two synthesis calls with one token fetch between them.
If the retry is answered with `TokenErr` as well, the token is cleared again
and `GetAudio` calls itself once more: the number of retries has no bound, and
against an endpoint that answers every synthesis call with 401 while every
token fetch succeeds, `GetAudio` has not returned after any number `n` of
nested calls, having made `n` synthesis calls. -/
theorem GetAudio_retries_while_unauthorized {σ : Type} (W : World σ) (fuel : Nat) (s s1 : St σ)
    (hlen : RuneCountInString s.arg.Text ≤ 300)
    (hens : ensureToken W s = (none, s1))
    (h401 : (callSpeak W s1).1.2 = some GoError.TokenErr) :
    GetAudio W (fuel + 1) s = GetAudio W fuel { (callSpeak W s1).2 with token := "" } ∧
    (callSpeak W s1).2.log = s1.log ++ [Event.synth s1.token s1.arg] ∧
    (∀ s2, ensureToken W { (callSpeak W s1).2 with token := "" } = (none, s2) →
      (callSpeak W s2).1.2 ≠ some GoError.TokenErr →
      GetAudio W (fuel + 2) s = (some (callSpeak W s2).1, (callSpeak W s2).2) ∧
      (callSpeak W s2).2.log = s1.log ++
        [Event.synth s1.token s1.arg, Event.tokenFetch, Event.synth s2.token s.arg]) ∧
    (∀ s2, ensureToken W { (callSpeak W s1).2 with token := "" } = (none, s2) →
      (callSpeak W s2).1.2 = some GoError.TokenErr →
      GetAudio W (fuel + 2) s = GetAudio W fuel { (callSpeak W s2).2 with token := "" }) ∧
    (AlwaysUnauthorized W → TokenAlwaysGiven W → ∀ n,
      (GetAudio W n s).1 = none ∧
      synthCount (GetAudio W n s).2.log = synthCount s.log + n) := by
  have harg : s1.arg = s.arg := by
    have := ensureToken_arg W s
    rw [hens] at this
    exact this
  have hlen1 : RuneCountInString s1.arg.Text ≤ 300 := by rw [harg]; exact hlen
  have step : ∀ f, GetAudio W (f + 1) s
      = GetAudio W f { (callSpeak W s1).2 with token := "" } := by
    intro f
    rw [GetAudio_of_ensured W f s s1 hens, sendOrSplit_retry W _ s1 hlen1 h401]
  have hs2 : ∀ s2, ensureToken W { (callSpeak W s1).2 with token := "" } = (none, s2) →
      s2.log = s1.log ++ [Event.synth s1.token s1.arg] ++ [Event.tokenFetch] ∧
      s2.arg = s.arg := by
    intro s2 h2
    obtain ⟨e1, e2⟩ := ensureToken_of_empty W _ s2 rfl h2
    constructor
    · rw [e1]
      show (callSpeak W s1).2.log ++ _ = _
      rw [callSpeak_log]
    · rw [e2]
      show (callSpeak W s1).2.arg = _
      rw [callSpeak_arg, harg]
  refine ⟨step fuel, callSpeak_log W s1, ?_, ?_, ?_⟩
  · intro s2 h2 hne
    obtain ⟨e1, e2⟩ := hs2 s2 h2
    have hlen2 : RuneCountInString s2.arg.Text ≤ 300 := by rw [e2]; exact hlen
    constructor
    · rw [step (fuel + 1), GetAudio_of_ensured W fuel _ s2 h2,
        sendOrSplit_done W _ s2 hlen2 hne]
    · rw [callSpeak_log, e1, e2]
      simp
  · intro s2 h2 h401b
    obtain ⟨_, e2⟩ := hs2 s2 h2
    have hlen2 : RuneCountInString s2.arg.Text ≤ 300 := by rw [e2]; exact hlen
    rw [step (fuel + 1), GetAudio_of_ensured W fuel _ s2 h2,
      sendOrSplit_retry W _ s2 hlen2 h401b]
  · intro hA hT n
    exact GetAudio_unauthorized_forever W hA hT n s hlen

/-- C1 at a concrete input: the held token "old" is answered 401, the fetched
token "t" is accepted. -/
theorem GetAudio_retries_while_unauthorized_witness :
    GetAudio
        (scriptedWorld 200 (authTokenField "t") (fun n => if n = 0 then (401, []) else (200, [9])))
        2 (freshState "old" (sampleArg 2 'a' "v"))
      = (some (some [9], none),
         { token := "t", arg := sampleArg 2 'a' "v", net := 2,
           log := [Event.synth "old" (sampleArg 2 'a' "v"), Event.tokenFetch,
                   Event.synth "t" (sampleArg 2 'a' "v")] }) :=
  ((GetAudio_retries_while_unauthorized
    (scriptedWorld 200 (authTokenField "t") (fun n => if n = 0 then (401, []) else (200, [9])))
    0 (freshState "old" (sampleArg 2 'a' "v")) (freshState "old" (sampleArg 2 'a' "v"))
    (by decide) rfl rfl).2.2.1
    { token := "t", arg := sampleArg 2 'a' "v", net := 1,
      log := [Event.synth "old" (sampleArg 2 'a' "v"), Event.tokenFetch] }
    rfl (by decide)).1

/-- C1 as stated fails.  Against an endpoint that answers 401 to every
synthesis call, no depth of nested calls lets `GetAudio` return, so it never
returns `TokenErr`, and after two synthesis calls it is making a third.
Against an endpoint that answers 401 twice and then 200, the second 401 is
followed by a second retry and the call ends with audio and a nil error after
three synthesis calls. -/
theorem GetAudio_second_unauthorized_retried :
    (¬ ∃ fuel r, (GetAudio (scriptedWorld 200 (authTokenField "t") (fun _ => (401, [])))
        fuel (freshState "old" (sampleArg 2 'a' "v"))).1 = some r) ∧
    synthCount (GetAudio (scriptedWorld 200 (authTokenField "t") (fun _ => (401, [])))
        3 (freshState "old" (sampleArg 2 'a' "v"))).2.log = 3 ∧
    GetAudio
        (scriptedWorld 200 (authTokenField "t") (fun n => if n < 2 then (401, []) else (200, [9])))
        3 (freshState "old" (sampleArg 2 'a' "v"))
      = (some (some [9], none),
         { token := "t", arg := sampleArg 2 'a' "v", net := 3,
           log := [Event.synth "old" (sampleArg 2 'a' "v"), Event.tokenFetch,
                   Event.synth "t" (sampleArg 2 'a' "v"), Event.tokenFetch,
                   Event.synth "t" (sampleArg 2 'a' "v")] }) := by
  refine ⟨?_, rfl, rfl⟩
  rintro ⟨fuel, r, h⟩
  have hA : AlwaysUnauthorized (scriptedWorld 200 (authTokenField "t") (fun _ => (401, []))) :=
    fun _ _ => ⟨_, rfl⟩
  have hT : TokenAlwaysGiven (scriptedWorld 200 (authTokenField "t") (fun _ => (401, []))) :=
    fun _ => rfl
  have := (GetAudio_unauthorized_forever _ hA hT fuel
    (freshState "old" (sampleArg 2 'a' "v")) (by decide)).1
  rw [this] at h
  exact Option.noConfusion h

/-! ## The caller's request -/

/-- C9 fails on the code: `tmpArg := arg` copies the pointer, not the struct.
After `GetAudio` on a text of 301 codepoints has returned its audio, the
caller's `Text` is the last chunk, of 11 codepoints; after
`GetAudioNoVoiceId` has returned, the caller's `VoiceId` is the identifier of
the table, not the one the request carried. -/
theorem GetAudio_overwrites_caller_request :
    (GetAudio (scriptedWorld 200 noFields (fun _ => (200, [1]))) 2
        (freshState "tok" (sampleArg 301 'a' "v"))).1 = some (some [1, 1], none) ∧
    (GetAudio (scriptedWorld 200 noFields (fun _ => (200, [1]))) 2
        (freshState "tok" (sampleArg 301 'a' "v"))).2.arg = sampleArg 11 'a' "v" ∧
    RuneCountInString (GetAudio (scriptedWorld 200 noFields (fun _ => (200, [1]))) 2
        (freshState "tok" (sampleArg 301 'a' "v"))).2.arg.Text = 11 ∧
    (GetAudioNoVoiceId (scriptedWorld 200 noFields (fun _ => (200, [1])))
        (fun name => if name = "v" then some "id-of-v" else none) 1
        (freshState "tok" { sampleArg 2 'a' "v" with VoiceId := "custom" })).1
      = some (some [1], none) ∧
    (GetAudioNoVoiceId (scriptedWorld 200 noFields (fun _ => (200, [1])))
        (fun name => if name = "v" then some "id-of-v" else none) 1
        (freshState "tok" { sampleArg 2 'a' "v" with VoiceId := "custom" })).2.arg.VoiceId
      = "id-of-v" :=
  ⟨rfl, rfl, rfl, rfl, rfl⟩

end Creation
